import Mathlib

/-!
A shallow embedding of the `kvmap` crate: the `Pathmap` namespace/path routing and
store-lifecycle manager (src/lib.rs), its per-store CRUD layer (src/db.rs) and its
error taxonomy (src/error.rs).

Rust `String`/`&str` values are modelled as `List Char`; the opaque serialized blobs
produced by serde_json are modelled as `List Nat`.  A `Pathmap`'s observable state is
the set of backing SQLite files (namespace name ↦ table rows, in rowid order) together
with the set of namespaces that have a cached `SqlitePool` handle; a cached handle is a
connection to the namespace's backing file, so database operations through a handle
read and write that file's rows.
-/

set_option autoImplicit false

namespace Kvmap

/-- Rust string, as a list of characters. -/
abbrev Str := List Char

/-- An opaque serialized value (`Vec<u8>` from serde_json). -/
abbrev Bytes := List Nat

/-- src/error.rs `PathmapError`.  The payloads of the three wrapped external error
kinds (`sqlx::Error`, `std::io::Error`, `serde_json::Error`) are dropped. -/
inductive PathmapError where
  | NamespaceAlreadyExists : Str → PathmapError
  | NamespaceNotFound : Str → PathmapError
  | GroupAlreadyExists : Str → Str → PathmapError
  | GroupNotFound : Str → Str → PathmapError
  | ValueAlreadyExists : Str → PathmapError
  | ValueNotFound : Str → PathmapError
  | InvalidPath : Str → PathmapError
  | DatabaseError : PathmapError
  | IoError : PathmapError
  | JsonError : PathmapError
  deriving DecidableEq

/-- src/error.rs `Result<T>`. -/
inductive Res (α : Type) where
  | ok : α → Res α
  | err : PathmapError → Res α
  deriving DecidableEq

/-- One namespace's `kv_store` table: `(key, value)` rows in rowid (insertion) order. -/
abbrev Store := List (Str × Bytes)

/-- `SELECT value FROM kv_store WHERE key = ?` (keys form a PRIMARY KEY, so the first
row with the key is the row). -/
def storeLookup (k : Str) : Store → Option Bytes
  | [] => none
  | (k', v) :: rest => if k' = k then some v else storeLookup k rest

/-- `DELETE FROM kv_store WHERE key = ?`. -/
def storeErase (k : Str) : Store → Store
  | [] => []
  | (k', v) :: rest => if k' = k then storeErase k rest else (k', v) :: storeErase k rest

/-- `a` is a string prefix of `b` (SQLite `b LIKE 'a%'`; LIKE metacharacters inside
`a` are not modelled, keys are taken wildcard-free). -/
def isPref : Str → Str → Bool
  | [], _ => true
  | _ :: _, [] => false
  | a :: as, b :: bs => if a = b then isPref as bs else false

/-- The observable state of a `Pathmap` value: `files` is the directory at
`base_path` (namespace name ↦ contents of `<base_path>/<ns>.sqlite`; `get_db_path` is
injective, so files are keyed by namespace name directly), `pools` is the key set of
the `pools: HashMap<String, SqlitePool>` handle cache. -/
structure PMState where
  files : List (Str × Store)
  pools : List Str
  deriving DecidableEq

/-- Look up a backing file by namespace name. -/
def filesLookup (ns : Str) : List (Str × Store) → Option Store
  | [] => none
  | (n, st) :: rest => if n = ns then some st else filesLookup ns rest

/-- Write a backing file (create or replace contents). -/
def filesInsert (ns : Str) (st : Store) : List (Str × Store) → List (Str × Store)
  | [] => [(ns, st)]
  | (n, st') :: rest => if n = ns then (ns, st) :: rest else (n, st') :: filesInsert ns st rest

/-- `std::fs::remove_file` on the namespace's backing file: a file name occurs at most
once in a directory, so every occurrence is dropped. -/
def filesErase (ns : Str) : List (Str × Store) → List (Str × Store)
  | [] => []
  | (n, st) :: rest => if n = ns then filesErase ns rest else (n, st) :: filesErase ns rest

/-- `HashMap::insert` on the pool cache (keys are unique). -/
def poolsInsert (ns : Str) (ps : List Str) : List Str :=
  if ns ∈ ps then ps else ns :: ps

/-- `HashMap::remove` on the pool cache (a key occurs at most once, so every
occurrence is dropped). -/
def poolsErase (ns : Str) : List Str → List Str
  | [] => []
  | n :: rest => if n = ns then poolsErase ns rest else n :: poolsErase ns rest

/-- src/lib.rs `get_db_path(ns).exists()`. -/
def fileExists (s : PMState) (ns : Str) : Bool :=
  (filesLookup ns s.files).isSome

/-- The table a pool handle for `ns` reads and writes: the backing file's rows. -/
def dbStore (s : PMState) (ns : Str) : Store :=
  (filesLookup ns s.files).getD []

/-- Commit new table contents for `ns` to its backing file. -/
def dbWrite (s : PMState) (ns : Str) (st : Store) : PMState :=
  { s with files := filesInsert ns st s.files }

/-- src/db.rs `get`: `SELECT value WHERE key = ?`, `ValueNotFound` when no row. -/
def db_get (s : PMState) (ns k : Str) : Res Bytes :=
  match storeLookup k (dbStore s ns) with
  | some v => .ok v
  | none => .err (.ValueNotFound k)

/-- src/db.rs `set`: a plain `INSERT`; a duplicate key violates the PRIMARY KEY
constraint and surfaces as a database error; a fresh row gets the next rowid, i.e.
goes to the end. -/
def db_set (s : PMState) (ns k : Str) (v : Bytes) : Res Unit × PMState :=
  if (storeLookup k (dbStore s ns)).isSome then (.err .DatabaseError, s)
  else (.ok (), dbWrite s ns (dbStore s ns ++ [(k, v)]))

/-- src/db.rs `exists`: `SELECT COUNT(*) WHERE key LIKE '<k>%'` — a string-prefix
match against every stored key. -/
def db_exists (s : PMState) (ns k : Str) : Bool :=
  (dbStore s ns).any fun e => isPref k e.1

/-- src/db.rs `delete`: `DELETE WHERE key = ?`, no error when the key is absent. -/
def db_delete (s : PMState) (ns k : Str) : PMState :=
  dbWrite s ns (storeErase k (dbStore s ns))

/-- src/db.rs `overwrite`: `INSERT OR REPLACE`; replacing assigns a fresh rowid, so
the row moves to the end of the table. -/
def db_overwrite (s : PMState) (ns k : Str) (v : Bytes) : PMState :=
  dbWrite s ns (storeErase k (dbStore s ns) ++ [(k, v)])

/-- src/db.rs `list_keys`: `SELECT key WHERE key LIKE '<pref>%'`, rowid order. -/
def db_list_keys (s : PMState) (ns : Str) (pref : Str) : List Str :=
  ((dbStore s ns).map Prod.fst).filter fun k => isPref pref k

/-- The external serialization codec: `enc` models `serde_json::to_vec`, `dec`
models `serde_json::from_slice` (`none` = deserialization failure). -/
structure Codec (α : Type) where
  enc : α → Bytes
  dec : Bytes → Option α

/-- `str::split_once("::")`: split at the first occurrence of the namespace
separator. -/
def splitOnceNs : Str → Option (Str × Str)
  | [] => none
  | ':' :: ':' :: rest => some ([], rest)
  | c :: rest => (splitOnceNs rest).map fun q => (c :: q.1, q.2)

/-- src/lib.rs `parse_path`: fails with `InvalidPath` iff the separator is absent. -/
def parse_path (p : Str) : Res (Str × Str) :=
  match splitOnceNs p with
  | some nk => .ok nk
  | none => .err (.InvalidPath p)

/-- src/lib.rs `get_pool`: return the cached handle, else open the backing file if it
exists (caching the fresh handle), else `NamespaceNotFound`.  `db::connect` on an
existing file only runs `CREATE TABLE IF NOT EXISTS`, which leaves the rows as they
are. -/
def get_pool (s : PMState) (ns : Str) : Res Unit × PMState :=
  if ns ∈ s.pools then (.ok (), s)
  else if fileExists s ns then (.ok (), { s with pools := poolsInsert ns s.pools })
  else (.err (.NamespaceNotFound ns), s)

/-- src/lib.rs `init_ns`: `NamespaceAlreadyExists` if the backing file exists, else
`db::connect` creates the file (with parent directories, abstracted here) and the
empty `kv_store` table, and the fresh handle is cached. -/
def init_ns (s : PMState) (ns : Str) : Res Bool × PMState :=
  if fileExists s ns then (.err (.NamespaceAlreadyExists ns), s)
  else
    let s1 := dbWrite s ns []
    (.ok true, { s1 with pools := poolsInsert ns s1.pools })

/-- src/lib.rs `delete_ns`: first remove and close any cached handle, then
`NamespaceNotFound` if the backing file does not exist, else remove the file. -/
def delete_ns (s : PMState) (ns : Str) : Res Bool × PMState :=
  let s1 : PMState := { s with pools := poolsErase ns s.pools }
  if fileExists s1 ns then (.ok true, { s1 with files := filesErase ns s1.files })
  else (.err (.NamespaceNotFound ns), s1)

/-- src/lib.rs `get_pool_or_init`: `get_pool`, and on `NamespaceNotFound` run
`init_ns` then `get_pool` again. -/
def get_pool_or_init (s : PMState) (ns : Str) : Res Unit × PMState :=
  match get_pool s ns with
  | (.ok _, s1) => (.ok (), s1)
  | (.err (.NamespaceNotFound _), s1) =>
    match init_ns s1 ns with
    | (.err e, s2) => (.err e, s2)
    | (.ok _, s2) => get_pool s2 ns
  | (.err e, s1) => (.err e, s1)

/-- src/lib.rs `Pathmap::get`. -/
def pm_get {α : Type} (c : Codec α) (s : PMState) (p : Str) : Res α × PMState :=
  match parse_path p with
  | .err e => (.err e, s)
  | .ok (ns, k) =>
    match get_pool s ns with
    | (.err e, s1) => (.err e, s1)
    | (.ok _, s1) =>
      match db_get s1 ns k with
      | .err e => (.err e, s1)
      | .ok raw =>
        match c.dec raw with
        | some v => (.ok v, s1)
        | none => (.err .JsonError, s1)

/-- src/lib.rs `Pathmap::set`: fails with `ValueAlreadyExists` when `db::exists`
reports a (prefix) match, else serializes and runs `db::set`. -/
def pm_set {α : Type} (c : Codec α) (s : PMState) (p : Str) (v : α) : Res Unit × PMState :=
  match parse_path p with
  | .err e => (.err e, s)
  | .ok (ns, k) =>
    match get_pool s ns with
    | (.err e, s1) => (.err e, s1)
    | (.ok _, s1) =>
      if db_exists s1 ns k then (.err (.ValueAlreadyExists k), s1)
      else db_set s1 ns k (c.enc v)

/-- src/lib.rs `Pathmap::overwrite`. -/
def pm_overwrite {α : Type} (c : Codec α) (s : PMState) (p : Str) (v : α) :
    Res Unit × PMState :=
  match parse_path p with
  | .err e => (.err e, s)
  | .ok (ns, k) =>
    match get_pool_or_init s ns with
    | (.err e, s1) => (.err e, s1)
    | (.ok _, s1) => (.ok (), db_overwrite s1 ns k (c.enc v))

/-- src/lib.rs `Pathmap::delete`. -/
def pm_delete (s : PMState) (p : Str) : Res Unit × PMState :=
  match parse_path p with
  | .err e => (.err e, s)
  | .ok (ns, k) =>
    match get_pool s ns with
    | (.err e, s1) => (.err e, s1)
    | (.ok _, s1) => (.ok (), db_delete s1 ns k)

/-- src/lib.rs `Pathmap::exists` (named `pm_exists` as `exists` is reserved):
with a separator, true iff the namespace's backing file exists and `db::exists`
matches; without one, true iff the backing file of that name exists. -/
def pm_exists (s : PMState) (p : Str) : Res Bool × PMState :=
  match parse_path p with
  | .ok (ns, k) =>
    if fileExists s ns then
      match get_pool s ns with
      | (.err e, s1) => (.err e, s1)
      | (.ok _, s1) => (.ok (db_exists s1 ns k), s1)
    else (.ok false, s)
  | .err _ => if fileExists s p then (.ok true, s) else (.ok false, s)

/-- A hierarchical listing result (`Listing { groups, values }`). -/
structure Listing where
  groups : List Str
  values : List Str
  deriving DecidableEq

/-- Record a name once (both listing collections are deduplicated, kept in first-seen
order as the repository's own list example expects). -/
def pushDedup (x : Str) (xs : List Str) : List Str :=
  if x ∈ xs then xs else xs ++ [x]

/-- Classify one stripped remainder: a remainder with a further `.` separator
contributes its first segment to `groups`, otherwise itself to `values`. -/
def classifyStep (acc : Listing) (rem : Str) : Listing :=
  if '.' ∈ rem then
    { acc with groups := pushDedup (rem.takeWhile fun c => c ≠ '.') acc.groups }
  else
    { acc with values := pushDedup rem acc.values }

/-- Classify the stripped remainders of all matching keys, in key order. -/
def classify (rems : List Str) : Listing :=
  rems.foldl classifyStep { groups := [], values := [] }

/-- Modelled from the spec: resolve the namespace, scan the keys matching the
group-path prefix via `db::list_keys`, strip the prefix and classify each remainder.
(Shared core of the two `Pathmap::list` path forms.) -/
def pm_list_core (s : PMState) (ns : Str) (pref : Str) : Res Listing × PMState :=
  match get_pool s ns with
  | (.err e, s1) => (.err e, s1)
  | (.ok _, s1) =>
    let keys := db_list_keys s1 ns pref
    (.ok (classify (keys.map fun k => k.drop pref.length)), s1)

/-- Modelled from the spec: `Pathmap::list` itself is not under `src/` — only its
collaborator `db::list_keys` and its example caller are.  Spec 4.5: scan all keys
whose string form is prefixed by the group-path portion of the path; for each, strip
the prefix; a remainder with a further group separator contributes its first segment
(deduplicated) to `groups`, otherwise the remainder goes to `values`.  A bare
namespace path lists from the empty prefix; `ns::g` lists from the prefix `g.` (the
form the repository's example output requires). -/
def pm_list (s : PMState) (p : Str) : Res Listing × PMState :=
  match splitOnceNs p with
  | some (ns, gp) => pm_list_core s ns (gp ++ ['.'])
  | none => pm_list_core s p []

/-- Entry lookup in the background task's `last_access: HashMap<String, Instant>`. -/
def laLookup (ns : Str) : List (Str × Nat) → Option Nat
  | [] => none
  | (n, t) :: rest => if n = ns then some t else laLookup ns rest

/-- `HashMap::insert` (or update through `or_insert`) on the last-access map. -/
def laInsert (ns : Str) (t : Nat) : List (Str × Nat) → List (Str × Nat)
  | [] => [(ns, t)]
  | (n, t') :: rest => if n = ns then (ns, t) :: rest else (n, t') :: laInsert ns t rest

/-- The scheduler's per-tick bookkeeping: the last-access map after the tick, the
namespaces compacted this tick (in order), and the namespaces whose `VACUUM`
returned an error (reported via `eprintln!` and swallowed). -/
structure TickAcc where
  la : List (Str × Nat)
  vacuumed : List Str
  failed : List Str
  deriving DecidableEq

/-- src/lib.rs `start_background_cleanup`, the loop body for one snapshotted
namespace: `last_access.entry(ns).or_insert(now)`, then when
`now.duration_since(*last) > idle_timeout` run `db::vacuum` (its error is reported
and swallowed) and reset `*last = now`.  `Instant` is modelled as `Nat` with
saturating subtraction; `vacuumOk` is the oracle for the external `VACUUM` outcome
(`VACUUM` never changes the logical rows). -/
def tickStep (idleTimeout now : Nat) (vacuumOk : Str → Bool) (acc : TickAcc) (ns : Str) :
    TickAcc :=
  let last := (laLookup ns acc.la).getD now
  if idleTimeout < now - last then
    { la := laInsert ns now acc.la
      vacuumed := acc.vacuumed ++ [ns]
      failed := if vacuumOk ns then acc.failed else acc.failed ++ [ns] }
  else
    { acc with la := if (laLookup ns acc.la).isSome then acc.la else laInsert ns now acc.la }

/-- One full scheduler tick over a snapshot of the pool cache's key set (the code
clones the map's entries before iterating; `Instant::now()` is sampled per iteration
and abstracted as the single tick timestamp `now`). -/
def tick (pools : List Str) (idleTimeout now : Nat) (vacuumOk : Str → Bool)
    (la : List (Str × Nat)) : TickAcc :=
  pools.foldl (tickStep idleTimeout now vacuumOk) { la := la, vacuumed := [], failed := [] }

/-- A concrete codec instance used to exercise the operations on closed inputs. -/
def natCodec : Codec Nat where
  enc n := [n]
  dec b := match b with
    | [n] => some n
    | _ => none

/-! ### Basic facts about the association-list helpers -/

theorem isPref_refl (k : Str) : isPref k k = true := by
  induction k with
  | nil => rfl
  | cons a as ih => simp [isPref, ih]

theorem storeLookup_mem {k : Str} {l : Store} {v : Bytes} (h : storeLookup k l = some v) :
    (k, v) ∈ l := by
  induction l with
  | nil => simp [storeLookup] at h
  | cons e rest ih =>
    obtain ⟨k', v'⟩ := e
    by_cases hk : k' = k
    · subst hk
      simp [storeLookup] at h
      simp [h]
    · simp [storeLookup, hk] at h
      exact List.mem_cons_of_mem _ (ih h)

theorem storeLookup_eq_none_of_no_pref {k : Str} {l : Store}
    (h : ∀ e ∈ l, isPref k e.1 = false) : storeLookup k l = none := by
  cases hl : storeLookup k l with
  | none => rfl
  | some v =>
    have hm := storeLookup_mem hl
    have := h (k, v) hm
    rw [isPref_refl] at this
    cases this

theorem storeLookup_append_self {k : Str} {l : Store} (v : Bytes)
    (h : storeLookup k l = none) : storeLookup k (l ++ [(k, v)]) = some v := by
  induction l with
  | nil => simp [storeLookup]
  | cons e rest ih =>
    obtain ⟨k', v'⟩ := e
    by_cases hk : k' = k
    · simp [storeLookup, hk] at h
    · simp [storeLookup, hk] at h ⊢
      exact ih h

theorem storeLookup_storeErase_self (k : Str) (l : Store) :
    storeLookup k (storeErase k l) = none := by
  induction l with
  | nil => rfl
  | cons e rest ih =>
    obtain ⟨k', v'⟩ := e
    by_cases hk : k' = k
    · simp [storeErase, hk, ih]
    · simp [storeErase, storeLookup, hk, ih]

theorem filesLookup_filesInsert_self (ns : Str) (st : Store) (fs : List (Str × Store)) :
    filesLookup ns (filesInsert ns st fs) = some st := by
  induction fs with
  | nil => simp [filesInsert, filesLookup]
  | cons e rest ih =>
    obtain ⟨n, st'⟩ := e
    by_cases hn : n = ns
    · simp [filesInsert, filesLookup, hn]
    · simp [filesInsert, filesLookup, hn, ih]

theorem filesLookup_filesErase_self (ns : Str) (fs : List (Str × Store)) :
    filesLookup ns (filesErase ns fs) = none := by
  induction fs with
  | nil => rfl
  | cons e rest ih =>
    obtain ⟨n, st⟩ := e
    by_cases hn : n = ns
    · simp [filesErase, hn, ih]
    · simp [filesErase, filesLookup, hn, ih]

theorem poolsErase_not_mem (ns : Str) (ps : List Str) : ns ∉ poolsErase ns ps := by
  induction ps with
  | nil => simp [poolsErase]
  | cons n rest ih =>
    by_cases hn : n = ns
    · simpa [poolsErase, hn] using ih
    · simp [poolsErase, hn, ih, Ne.symm hn]

theorem mem_poolsInsert_self (ns : Str) (ps : List Str) : ns ∈ poolsInsert ns ps := by
  by_cases h : ns ∈ ps <;> simp [poolsInsert, h]

theorem mem_poolsInsert_of_mem {n : Str} (ns : Str) {ps : List Str} (h : n ∈ ps) :
    n ∈ poolsInsert ns ps := by
  by_cases hm : ns ∈ ps <;> simp [poolsInsert, hm, h]

theorem laLookup_laInsert_self (ns : Str) (t : Nat) (la : List (Str × Nat)) :
    laLookup ns (laInsert ns t la) = some t := by
  induction la with
  | nil => simp [laInsert, laLookup]
  | cons e rest ih =>
    obtain ⟨n, t'⟩ := e
    by_cases hn : n = ns
    · simp [laInsert, laLookup, hn]
    · simp [laInsert, laLookup, hn, ih]

theorem laLookup_laInsert_ne {n ns : Str} (h : n ≠ ns) (t : Nat) (la : List (Str × Nat)) :
    laLookup n (laInsert ns t la) = laLookup n la := by
  induction la with
  | nil => simp [laInsert, laLookup, Ne.symm h]
  | cons e rest ih =>
    obtain ⟨m, t'⟩ := e
    by_cases hm : m = ns
    · subst hm
      simp [laInsert, laLookup, Ne.symm h, h]
    · simp [laInsert, laLookup, hm, ih]

/-! ### Facts about `get_pool` -/

theorem get_pool_of_mem {s : PMState} {ns : Str} (h : ns ∈ s.pools) :
    get_pool s ns = (.ok (), s) := by
  simp [get_pool, h]

theorem get_pool_ok_state {s : PMState} {ns : Str} (h : fileExists s ns = true) :
    ∃ s1 : PMState, get_pool s ns = (.ok (), s1) ∧ s1.files = s.files ∧
      ns ∈ s1.pools ∧ ∀ n ∈ s.pools, n ∈ s1.pools := by
  by_cases hm : ns ∈ s.pools
  · exact ⟨s, get_pool_of_mem hm, rfl, hm, fun n hn => hn⟩
  · refine ⟨{ s with pools := poolsInsert ns s.pools }, ?_, rfl, ?_, ?_⟩
    · simp [get_pool, hm, h]
    · exact mem_poolsInsert_self ns s.pools
    · exact fun n hn => mem_poolsInsert_of_mem ns hn

theorem dbStore_eq_of_files {s1 s2 : PMState} (h : s1.files = s2.files) (ns : Str) :
    dbStore s1 ns = dbStore s2 ns := by
  simp [dbStore, h]

theorem fileExists_eq_of_files {s1 s2 : PMState} (h : s1.files = s2.files) (ns : Str) :
    fileExists s1 ns = fileExists s2 ns := by
  simp [fileExists, h]

theorem db_exists_eq_of_files {s1 s2 : PMState} (h : s1.files = s2.files) (ns k : Str) :
    db_exists s1 ns k = db_exists s2 ns k := by
  simp [db_exists, dbStore, h]

/-! ### Claim theorems -/

/-- C5: for a namespace whose backing file does not yet exist, `init_ns` succeeds —
creating the backing store (an empty table; directory creation is below the model's
granularity), caching a fresh handle and returning true — and a second `init_ns` of
the same name without an intervening `delete_ns` fails with `NamespaceAlreadyExists`. -/
theorem init_ns_once (s : PMState) (ns : Str) (hf : fileExists s ns = false) :
    (init_ns s ns).1 = .ok true ∧
    fileExists (init_ns s ns).2 ns = true ∧
    dbStore (init_ns s ns).2 ns = [] ∧
    ns ∈ (init_ns s ns).2.pools ∧
    (init_ns (init_ns s ns).2 ns).1 = .err (.NamespaceAlreadyExists ns) := by
  simp only [fileExists] at hf
  refine ⟨?_, ?_, ?_, ?_, ?_⟩ <;>
    simp [init_ns, fileExists, dbWrite, dbStore, hf, filesLookup_filesInsert_self,
      mem_poolsInsert_self]

/-- C5 witness: a fresh namespace on the empty state. -/
theorem init_ns_once_witness :
    (init_ns ⟨[], []⟩ ("ns".toList)).1 = .ok true :=
  (init_ns_once ⟨[], []⟩ ("ns".toList) (by decide)).1

/-- C6: `delete_ns` always removes the cached handle first (also on the error path),
fails with `NamespaceNotFound` when the backing file does not exist (leaving the
files untouched), and otherwise deletes the backing file and returns true, after
which `init_ns` of the same name succeeds again. -/
theorem delete_ns_spec (s : PMState) (ns : Str) :
    ns ∉ (delete_ns s ns).2.pools ∧
    (fileExists s ns = false →
      (delete_ns s ns).1 = .err (.NamespaceNotFound ns) ∧
      (delete_ns s ns).2.files = s.files) ∧
    (fileExists s ns = true →
      (delete_ns s ns).1 = .ok true ∧
      fileExists (delete_ns s ns).2 ns = false ∧
      (init_ns (delete_ns s ns).2 ns).1 = .ok true) := by
  refine ⟨?_, ?_, ?_⟩
  · by_cases hf : (filesLookup ns s.files).isSome <;>
      simpa [delete_ns, fileExists, hf] using poolsErase_not_mem ns s.pools
  · intro hf
    simp only [fileExists] at hf
    simp [delete_ns, fileExists, hf]
  · intro hf
    simp only [fileExists] at hf
    simp [delete_ns, init_ns, fileExists, hf, filesLookup_filesErase_self]

/-- C6 witness: destroying a namespace that was just created. -/
theorem delete_ns_spec_witness :
    (delete_ns (init_ns ⟨[], []⟩ ("x".toList)).2 ("x".toList)).1 = .ok true :=
  ((delete_ns_spec (init_ns ⟨[], []⟩ ("x".toList)).2 ("x".toList)).2.2 (by decide)).1

/-- C10: when the backing file is absent but a handle is cached, `delete_ns` returns
`NamespaceNotFound` and has nevertheless already removed the cached handle — the
error path is not state-preserving. -/
theorem delete_ns_error_evicts (s : PMState) (ns : Str) (hf : fileExists s ns = false)
    (hm : ns ∈ s.pools) :
    (delete_ns s ns).1 = .err (.NamespaceNotFound ns) ∧
    ns ∉ (delete_ns s ns).2.pools ∧
    (delete_ns s ns).2.pools ≠ s.pools := by
  simp only [fileExists] at hf
  refine ⟨by simp [delete_ns, fileExists, hf], ?_, ?_⟩
  · simpa [delete_ns, fileExists, hf] using poolsErase_not_mem ns s.pools
  · have hnot : ns ∉ (delete_ns s ns).2.pools := by
      simpa [delete_ns, fileExists, hf] using poolsErase_not_mem ns s.pools
    intro heq
    rw [heq] at hnot
    exact hnot hm

/-- C10 witness: a state holding a cached handle for a namespace with no file. -/
theorem delete_ns_error_evicts_witness :
    (delete_ns ⟨[], ["ns".toList]⟩ ("ns".toList)).1 =
      .err (.NamespaceNotFound ("ns".toList)) :=
  (delete_ns_error_evicts ⟨[], ["ns".toList]⟩ ("ns".toList) (by decide) (by decide)).1

/-- C3: `pm_exists` has three-level semantics — with a separator it is true iff the
namespace's backing file exists and some stored key has the key portion as a string
prefix (a value or group under that key, by prefix match), and when the file does not
exist it returns false leaving the state untouched; without a separator it is true
iff a backing file of that name exists, again leaving the state untouched.  In the
matching case no file is created (the files are unchanged). -/
theorem exists_three_level (s : PMState) (p : Str) :
    (∀ ns k, splitOnceNs p = some (ns, k) →
      (fileExists s ns = true →
        (pm_exists s p).1 = .ok (db_exists s ns k) ∧
        (pm_exists s p).2.files = s.files ∧
        (db_exists s ns k = true ↔ ∃ e ∈ dbStore s ns, isPref k e.1 = true)) ∧
      (fileExists s ns = false → pm_exists s p = (.ok false, s))) ∧
    (splitOnceNs p = none → pm_exists s p = (.ok (fileExists s p), s)) := by
  constructor
  · intro ns k hp
    constructor
    · intro hf
      obtain ⟨s1, hgp, hfiles, _, _⟩ := get_pool_ok_state hf
      refine ⟨?_, ?_, ?_⟩
      · simp [pm_exists, parse_path, hp, hf, hgp, db_exists_eq_of_files hfiles]
      · simp [pm_exists, parse_path, hp, hf, hgp, hfiles]
      · simp [db_exists, dbStore, List.any_eq_true]
    · intro hf
      simp [pm_exists, parse_path, hp, hf]
  · intro hs
    by_cases hf : fileExists s p <;> simp [pm_exists, parse_path, hs, hf]

/-- A small populated state shared by the closed witnesses: namespace `words`
holding the single key `english.greeting`. -/
def demoState : PMState :=
  (pm_overwrite natCodec (init_ns ⟨[], []⟩ ("words".toList)).2
    ("words::english.greeting".toList) 1).2

/-- C3 witness: a group path that exists by prefix match. -/
theorem exists_three_level_witness :
    (pm_exists demoState ("words::english".toList)).1 =
      .ok (db_exists demoState ("words".toList) ("english".toList)) :=
  (((exists_three_level demoState ("words::english".toList)).1
    ("words".toList) ("english".toList) (by decide)).1 (by decide)).1

/-- C8: the listing scenario — keys `a.b`, `a.c`, `d` written in order under a fresh
namespace `ns`. -/
def listScenario : PMState :=
  (pm_overwrite natCodec
    (pm_overwrite natCodec
      (pm_overwrite natCodec (init_ns ⟨[], []⟩ ("ns".toList)).2
        ("ns::a.b".toList) 1).2
      ("ns::a.c".toList) 2).2
    ("ns::d".toList) 3).2

/-- C8: `pm_list` scans the keys matching the listing path's group prefix and
classifies each stripped remainder — a remainder with a further `.` goes (first
segment, deduplicated) into `groups`, otherwise into `values`: after writing `a.b`,
`a.c`, `d` under `ns`, listing `ns` yields groups `a` and values `d`, and listing
`ns::a` yields no groups and values `b`, `c`. -/
theorem list_scenario_spec :
    (pm_list listScenario ("ns".toList)).1 =
      .ok { groups := ["a".toList], values := ["d".toList] } ∧
    (pm_list listScenario ("ns::a".toList)).1 =
      .ok { groups := [], values := ["b".toList, "c".toList] } := by
  constructor <;> decide

/-- C1 counterexample: on namespace `ns` holding only the key `ab`, the key `a` is
absent, yet `pm_set` of `ns::a` fails with `ValueAlreadyExists` (the existence check
is a `LIKE 'a%'` prefix match), refuting "if k is absent then set succeeds". -/
theorem set_absent_key_still_fails :
    storeLookup ("a".toList)
        (dbStore (pm_set natCodec (init_ns ⟨[], []⟩ ("ns".toList)).2
          ("ns::ab".toList) 1).2 ("ns".toList)) = none ∧
    (pm_set natCodec
        (pm_set natCodec (init_ns ⟨[], []⟩ ("ns".toList)).2 ("ns::ab".toList) 1).2
        ("ns::a".toList) 2).1 =
      .err (.ValueAlreadyExists ("a".toList)) := by
  constructor <;> decide

/-- C2 counterexample: on namespace `db` holding only the key `key1`, the key `key`
is not present, yet `pm_set` of `db::key` fails with `ValueAlreadyExists` — the
"only if the key is already present" direction is false. -/
theorem set_fails_without_key_present :
    storeLookup ("key".toList)
        (dbStore (pm_set natCodec (init_ns ⟨[], []⟩ ("db".toList)).2
          ("db::key1".toList) 7).2 ("db".toList)) = none ∧
    (pm_set natCodec
        (pm_set natCodec (init_ns ⟨[], []⟩ ("db".toList)).2 ("db::key1".toList) 7).2
        ("db::key".toList) 8).1 =
      .err (.ValueAlreadyExists ("key".toList)) := by
  constructor <;> decide

/-- C7 counterexample: the path `ns::` (separator with empty remainder) is not
rejected — `parse_path` returns the empty key and `pm_set` on a fresh namespace
happily inserts a row under the empty key. -/
theorem empty_remainder_not_rejected :
    parse_path ("ns::".toList) = .ok ("ns".toList, []) ∧
    (pm_set natCodec (init_ns ⟨[], []⟩ ("ns".toList)).2 ("ns::".toList) 5).1 =
      .ok () ∧
    storeLookup []
        (dbStore (pm_set natCodec (init_ns ⟨[], []⟩ ("ns".toList)).2
          ("ns::".toList) 5).2 ("ns".toList)) = some (natCodec.enc 5) := by
  refine ⟨by decide, by decide, by decide⟩

theorem db_exists_eq_false_of_no_pref {s : PMState} {ns k : Str}
    (habs : ∀ e ∈ dbStore s ns, isPref k e.1 = false) : db_exists s ns k = false := by
  cases h : db_exists s ns k with
  | false => rfl
  | true =>
    rw [db_exists, List.any_eq_true] at h
    obtain ⟨e, he, hpe⟩ := h
    rw [habs e he] at hpe
    cases hpe

theorem pm_set_success {α : Type} (c : Codec α) (s : PMState) (p ns k : Str) (v : α)
    (hp : splitOnceNs p = some (ns, k))
    (hf : fileExists s ns = true)
    (habs : ∀ e ∈ dbStore s ns, isPref k e.1 = false) :
    (pm_set c s p v).1 = .ok () ∧
    dbStore (pm_set c s p v).2 ns = dbStore s ns ++ [(k, c.enc v)] ∧
    fileExists (pm_set c s p v).2 ns = true := by
  obtain ⟨s1, hgp, hfiles, _, _⟩ := get_pool_ok_state hf
  have hexs1 : db_exists s1 ns k = false := by
    rw [db_exists_eq_of_files hfiles]
    exact db_exists_eq_false_of_no_pref habs
  have hlk1 : storeLookup k (dbStore s1 ns) = none := by
    rw [dbStore_eq_of_files hfiles]
    exact storeLookup_eq_none_of_no_pref habs
  have hres : pm_set c s p v = (.ok (), dbWrite s1 ns (dbStore s1 ns ++ [(k, c.enc v)])) := by
    simp [pm_set, parse_path, hp, hgp, hexs1, db_set, hlk1]
  rw [hres]
  refine ⟨rfl, ?_, ?_⟩
  · simp [dbWrite, dbStore, filesLookup_filesInsert_self, hfiles]
  · simp [dbWrite, fileExists, filesLookup_filesInsert_self]

theorem pm_get_found {α : Type} (c : Codec α) (s : PMState) (p ns k : Str) (b : Bytes)
    (v : α)
    (hp : splitOnceNs p = some (ns, k))
    (hf : fileExists s ns = true)
    (hl : storeLookup k (dbStore s ns) = some b)
    (hd : c.dec b = some v) :
    (pm_get c s p).1 = .ok v := by
  obtain ⟨s1, hgp, hfiles, _, _⟩ := get_pool_ok_state hf
  have hl1 : storeLookup k (dbStore s1 ns) = some b := by
    rw [dbStore_eq_of_files hfiles]
    exact hl
  simp [pm_get, parse_path, hp, hgp, db_get, hl1, hd]

theorem overwrite_ok {α : Type} (c : Codec α) (s : PMState) (p ns k : Str) (v : α)
    (hp : splitOnceNs p = some (ns, k))
    (hns : ns ∈ s.pools → fileExists s ns = true) :
    (pm_overwrite c s p v).1 = .ok () ∧
    fileExists (pm_overwrite c s p v).2 ns = true ∧
    dbStore (pm_overwrite c s p v).2 ns = storeErase k (dbStore s ns) ++ [(k, c.enc v)] := by
  cases hf : fileExists s ns with
  | true =>
    obtain ⟨s1, hgp, hfiles, _, _⟩ := get_pool_ok_state hf
    have hpo : get_pool_or_init s ns = (.ok (), s1) := by
      simp [get_pool_or_init, hgp]
    have hres : pm_overwrite c s p v = (.ok (), db_overwrite s1 ns k (c.enc v)) := by
      simp [pm_overwrite, parse_path, hp, hpo]
    rw [hres]
    refine ⟨rfl, ?_, ?_⟩
    · simp [db_overwrite, dbWrite, fileExists, filesLookup_filesInsert_self]
    · simp [db_overwrite, dbWrite, dbStore, filesLookup_filesInsert_self, hfiles]
  | false =>
    have hm : ns ∉ s.pools := by
      intro h
      rw [hns h] at hf
      cases hf
    have hnone : filesLookup ns s.files = none := by
      simp only [fileExists] at hf
      cases hlk : filesLookup ns s.files with
      | none => rfl
      | some st => rw [hlk] at hf; cases hf
    have hgp : get_pool s ns = (.err (.NamespaceNotFound ns), s) := by
      simp [get_pool, hm, hf]
    have hini : init_ns s ns =
        (.ok true, ⟨filesInsert ns [] s.files, poolsInsert ns s.pools⟩) := by
      simp [init_ns, hf, dbWrite]
    have hgp2 : get_pool ⟨filesInsert ns [] s.files, poolsInsert ns s.pools⟩ ns =
        (.ok (), ⟨filesInsert ns [] s.files, poolsInsert ns s.pools⟩) := by
      simp [get_pool, mem_poolsInsert_self]
    have hpo : get_pool_or_init s ns =
        (.ok (), ⟨filesInsert ns [] s.files, poolsInsert ns s.pools⟩) := by
      simp [get_pool_or_init, hgp, hini, hgp2]
    have hres : pm_overwrite c s p v =
        (.ok (), db_overwrite ⟨filesInsert ns [] s.files, poolsInsert ns s.pools⟩
          ns k (c.enc v)) := by
      simp [pm_overwrite, parse_path, hp, hpo]
    rw [hres]
    refine ⟨rfl, ?_, ?_⟩
    · simp [db_overwrite, dbWrite, fileExists, filesLookup_filesInsert_self]
    · simp [db_overwrite, dbWrite, dbStore, filesLookup_filesInsert_self, hnone,
        storeErase]

/-- C1 (amended): for a path `ns::k` on an existing namespace, if no stored key has
`k` as a string prefix (in particular the key is absent and the `LIKE 'k%'` check
cannot fire), then `pm_set` succeeds and a subsequent `pm_get` returns the value
(round-trip through the codec).  The original hypothesis "k is absent" is not
sufficient: see the counterexample. -/
theorem set_get_roundtrip {α : Type} (c : Codec α) (s : PMState) (p ns k : Str) (v : α)
    (hp : splitOnceNs p = some (ns, k))
    (hf : fileExists s ns = true)
    (habs : ∀ e ∈ dbStore s ns, isPref k e.1 = false)
    (hrt : c.dec (c.enc v) = some v) :
    (pm_set c s p v).1 = .ok () ∧ (pm_get c (pm_set c s p v).2 p).1 = .ok v := by
  obtain ⟨hok, hst, hfe⟩ := pm_set_success c s p ns k v hp hf habs
  refine ⟨hok, ?_⟩
  have hlk : storeLookup k (dbStore (pm_set c s p v).2 ns) = some (c.enc v) := by
    rw [hst]
    exact storeLookup_append_self _ (storeLookup_eq_none_of_no_pref habs)
  exact pm_get_found c _ p ns k _ v hp hfe hlk hrt

/-- C1 witness: a fresh key on a fresh namespace round-trips. -/
theorem set_get_roundtrip_witness :
    (pm_get natCodec
        (pm_set natCodec (init_ns ⟨[], []⟩ ("ns".toList)).2 ("ns::k".toList) 7).2
        ("ns::k".toList)).1 = .ok 7 :=
  (set_get_roundtrip natCodec (init_ns ⟨[], []⟩ ("ns".toList)).2 ("ns::k".toList)
    ("ns".toList) ("k".toList) 7 (by decide) (by decide) (by decide) (by decide)).2

/-- C2 (amended): on an existing namespace, `pm_set` fails with `ValueAlreadyExists`
iff some stored key has `k` as a string prefix (the `LIKE 'k%'` existence check) —
not iff the key itself is present; a failed set leaves the namespace's rows
unchanged; when no stored key extends `k` the row `(k, enc v)` is inserted. -/
theorem set_pref_check_spec {α : Type} (c : Codec α) (s : PMState) (p ns k : Str) (v : α)
    (hp : splitOnceNs p = some (ns, k))
    (hf : fileExists s ns = true) :
    ((pm_set c s p v).1 = .err (.ValueAlreadyExists k) ↔
      ∃ e ∈ dbStore s ns, isPref k e.1 = true) ∧
    ((pm_set c s p v).1 = .err (.ValueAlreadyExists k) →
      dbStore (pm_set c s p v).2 ns = dbStore s ns) ∧
    ((∀ e ∈ dbStore s ns, isPref k e.1 = false) →
      (pm_set c s p v).1 = .ok () ∧
      dbStore (pm_set c s p v).2 ns = dbStore s ns ++ [(k, c.enc v)]) := by
  cases hex : db_exists s ns k with
  | true =>
    obtain ⟨s1, hgp, hfiles, _, _⟩ := get_pool_ok_state hf
    have hexs1 : db_exists s1 ns k = true := by
      rw [db_exists_eq_of_files hfiles]
      exact hex
    have hres : pm_set c s p v = (.err (.ValueAlreadyExists k), s1) := by
      simp [pm_set, parse_path, hp, hgp, hexs1]
    rw [hres]
    refine ⟨?_, fun _ => dbStore_eq_of_files hfiles ns, ?_⟩
    · simp only [true_iff]
      rw [db_exists, List.any_eq_true] at hex
      exact hex
    · intro habs
      rw [db_exists_eq_false_of_no_pref habs] at hex
      cases hex
  | false =>
    have habs : ∀ e ∈ dbStore s ns, isPref k e.1 = false := by
      intro e he
      cases hb : isPref k e.1 with
      | false => rfl
      | true =>
        have : db_exists s ns k = true := by
          rw [db_exists, List.any_eq_true]
          exact ⟨e, he, hb⟩
        rw [this] at hex
        cases hex
    obtain ⟨hok, hst, _⟩ := pm_set_success c s p ns k v hp hf habs
    refine ⟨?_, ?_, fun _ => ⟨hok, hst⟩⟩
    · rw [hok]
      constructor
      · intro hcon
        cases hcon
      · rintro ⟨e, he, hpe⟩
        rw [habs e he] at hpe
        cases hpe
    · intro hcon
      rw [hok] at hcon
      cases hcon

/-- C2 witness: a fresh key on a fresh namespace is inserted. -/
theorem set_pref_check_spec_witness :
    (pm_set natCodec (init_ns ⟨[], []⟩ ("m".toList)).2 ("m::x".toList) 1).1 = .ok () :=
  ((set_pref_check_spec natCodec (init_ns ⟨[], []⟩ ("m".toList)).2 ("m::x".toList)
    ("m".toList) ("x".toList) 1 (by decide) (by decide)).2.2 (by decide)).1

/-- C7 (amended): a path with the separator but an empty remainder is not rejected —
`parse_path` yields the empty key, and key-requiring operations operate on that empty
key: on an existing namespace with no rows, `pm_set` of such a path inserts a row
under the empty key. -/
theorem empty_remainder_spec {α : Type} (c : Codec α) (s : PMState) (p ns : Str) (v : α)
    (hp : splitOnceNs p = some (ns, []))
    (hf : fileExists s ns = true)
    (hemp : dbStore s ns = []) :
    parse_path p = .ok (ns, []) ∧
    (pm_set c s p v).1 = .ok () ∧
    dbStore (pm_set c s p v).2 ns = [([], c.enc v)] := by
  have habs : ∀ e ∈ dbStore s ns, isPref [] e.1 = false := by
    rw [hemp]
    intro e he
    cases he
  obtain ⟨hok, hst, _⟩ := pm_set_success c s p ns [] v hp hf habs
  refine ⟨by simp [parse_path, hp], hok, ?_⟩
  rw [hst, hemp]
  rfl

/-- C7 witness: `ns::` on a fresh namespace. -/
theorem empty_remainder_spec_witness :
    (pm_set natCodec (init_ns ⟨[], []⟩ ("ns".toList)).2 ("ns::".toList) 9).1 = .ok () :=
  (empty_remainder_spec natCodec (init_ns ⟨[], []⟩ ("ns".toList)).2 ("ns::".toList)
    ("ns".toList) 9 (by decide) (by decide) (by decide)).2.1

/-- C4: `pm_overwrite` is an unconditional upsert — for any path `ns::k` on a state
whose cached handle for `ns` (if any) is backed by a file, it succeeds regardless of
the key's prior presence or absence; if the namespace's backing file does not exist
it creates it transparently; and overwriting `v1` then `v2` followed by `pm_get`
returns `v2`. -/
theorem overwrite_upsert {α : Type} (c : Codec α) (s : PMState) (p ns k : Str)
    (v1 v2 : α)
    (hp : splitOnceNs p = some (ns, k))
    (hns : ns ∈ s.pools → fileExists s ns = true)
    (hrt : c.dec (c.enc v2) = some v2) :
    (pm_overwrite c s p v1).1 = .ok () ∧
    (fileExists s ns = false → fileExists (pm_overwrite c s p v1).2 ns = true) ∧
    (pm_overwrite c (pm_overwrite c s p v1).2 p v2).1 = .ok () ∧
    (pm_get c (pm_overwrite c (pm_overwrite c s p v1).2 p v2).2 p).1 = .ok v2 := by
  obtain ⟨h1, h2, _⟩ := overwrite_ok c s p ns k v1 hp hns
  obtain ⟨h4, h5, h6⟩ := overwrite_ok c (pm_overwrite c s p v1).2 p ns k v2 hp
    (fun _ => h2)
  refine ⟨h1, fun _ => h2, h4, ?_⟩
  have hlk : storeLookup k
      (dbStore (pm_overwrite c (pm_overwrite c s p v1).2 p v2).2 ns) =
      some (c.enc v2) := by
    rw [h6]
    exact storeLookup_append_self _ (storeLookup_storeErase_self k _)
  exact pm_get_found c _ p ns k _ v2 hp h5 hlk hrt

/-- C4 witness: two overwrites on a nonexistent namespace, then a read. -/
theorem overwrite_upsert_witness :
    (pm_get natCodec
        (pm_overwrite natCodec (pm_overwrite natCodec ⟨[], []⟩ ("n::k".toList) 1).2
          ("n::k".toList) 2).2
        ("n::k".toList)).1 = .ok 2 :=
  (overwrite_upsert natCodec ⟨[], []⟩ ("n::k".toList) ("n".toList) ("k".toList) 1 2
    (by decide) (by decide) (by decide)).2.2.2

/-! ### The background-cleanup tick -/

theorem tickStep_la_ne (idle now : Nat) (vac : Str → Bool) (acc : TickAcc) (hd : Str)
    {ns : Str} (hne : ns ≠ hd) :
    laLookup ns (tickStep idle now vac acc hd).la = laLookup ns acc.la := by
  simp only [tickStep]
  split
  · exact laLookup_laInsert_ne hne now acc.la
  · dsimp only
    split
    · rfl
    · exact laLookup_laInsert_ne hne now acc.la

theorem tick_go (idle now : Nat) (vac : Str → Bool) (la0 : List (Str × Nat)) :
    ∀ (pools : List Str) (acc : TickAcc),
      pools.Nodup →
      (∀ ns ∈ pools, laLookup ns acc.la = laLookup ns la0) →
      (pools.foldl (tickStep idle now vac) acc).vacuumed
          = acc.vacuumed ++
            pools.filter (fun ns => decide (idle < now - (laLookup ns la0).getD now)) ∧
      (pools.foldl (tickStep idle now vac) acc).failed
          = acc.failed ++
            ((pools.filter (fun ns => decide (idle < now - (laLookup ns la0).getD now))).filter
              fun ns => ! vac ns) ∧
      (∀ ns ∈ pools,
        laLookup ns (pools.foldl (tickStep idle now vac) acc).la
          = some (if idle < now - (laLookup ns la0).getD now then now
                  else (laLookup ns la0).getD now)) ∧
      ∀ ns, ns ∉ pools →
        laLookup ns (pools.foldl (tickStep idle now vac) acc).la = laLookup ns acc.la := by
  intro pools
  induction pools with
  | nil =>
    intro acc _ _
    refine ⟨by simp, by simp, by simp, fun ns _ => rfl⟩
  | cons hd tl ih =>
    intro acc hnd hla
    have hhd : laLookup hd acc.la = laLookup hd la0 := hla hd (List.mem_cons_self hd tl)
    have hndc := List.nodup_cons.mp hnd
    have hla' : ∀ ns ∈ tl, laLookup ns (tickStep idle now vac acc hd).la = laLookup ns la0 := by
      intro ns hns
      have hne : ns ≠ hd := fun h => hndc.1 (h ▸ hns)
      rw [tickStep_la_ne idle now vac acc hd hne]
      exact hla ns (List.mem_cons_of_mem hd hns)
    obtain ⟨ihv, ihf, ihm, ihn⟩ := ih (tickStep idle now vac acc hd) hndc.2 hla'
    by_cases hc : idle < now - (laLookup hd la0).getD now
    · have hvac' : (tickStep idle now vac acc hd).vacuumed = acc.vacuumed ++ [hd] := by
        simp only [tickStep, hhd]
        rw [if_pos hc]
      have hfail' : (tickStep idle now vac acc hd).failed
          = acc.failed ++ (if vac hd then [] else [hd]) := by
        simp only [tickStep, hhd]
        rw [if_pos hc]
        by_cases hv : vac hd <;> simp [hv]
      have hlahd : laLookup hd (tickStep idle now vac acc hd).la = some now := by
        simp only [tickStep, hhd]
        rw [if_pos hc]
        exact laLookup_laInsert_self hd now acc.la
      refine ⟨?_, ?_, ?_, ?_⟩
      · rw [List.foldl_cons, ihv, hvac', List.filter_cons]
        simp [hc]
      · rw [List.foldl_cons, ihf, hfail', List.filter_cons]
        by_cases hv : vac hd <;> simp [hc, hv]
      · intro ns hns
        rcases List.mem_cons.mp hns with hns | hns
        · subst hns
          rw [List.foldl_cons, ihn ns hndc.1, hlahd, if_pos hc]
        · rw [List.foldl_cons]
          exact ihm ns hns
      · intro ns hns
        rw [List.mem_cons, not_or] at hns
        rw [List.foldl_cons, ihn ns hns.2]
        exact tickStep_la_ne idle now vac acc hd hns.1
    · have hvac' : (tickStep idle now vac acc hd).vacuumed = acc.vacuumed := by
        simp only [tickStep, hhd]
        rw [if_neg hc]
      have hfail' : (tickStep idle now vac acc hd).failed = acc.failed := by
        simp only [tickStep, hhd]
        rw [if_neg hc]
      have hlahd : laLookup hd (tickStep idle now vac acc hd).la
          = some ((laLookup hd la0).getD now) := by
        simp only [tickStep, hhd]
        rw [if_neg hc]
        cases hsv : laLookup hd la0 with
        | some t =>
          have : laLookup hd acc.la = some t := by rw [hhd, hsv]
          simp [this, hsv]
        | none =>
          have : laLookup hd acc.la = none := by rw [hhd, hsv]
          simp [this, hsv, laLookup_laInsert_self]
      refine ⟨?_, ?_, ?_, ?_⟩
      · rw [List.foldl_cons, ihv, hvac', List.filter_cons]
        simp [hc]
      · rw [List.foldl_cons, ihf, hfail', List.filter_cons]
        simp [hc]
      · intro ns hns
        rcases List.mem_cons.mp hns with hns | hns
        · subst hns
          rw [List.foldl_cons, ihn ns hndc.1, hlahd, if_neg hc]
        · rw [List.foldl_cons]
          exact ihm ns hns
      · intro ns hns
        rw [List.mem_cons, not_or] at hns
        rw [List.foldl_cons, ihn ns hns.2]
        exact tickStep_la_ne idle now vac acc hd hns.1

theorem tick_oracle_indep (idle now : Nat) (vac vac2 : Str → Bool) :
    ∀ (pools : List Str) (acc acc2 : TickAcc),
      acc.la = acc2.la → acc.vacuumed = acc2.vacuumed →
      (pools.foldl (tickStep idle now vac) acc).la
          = (pools.foldl (tickStep idle now vac2) acc2).la ∧
      (pools.foldl (tickStep idle now vac) acc).vacuumed
          = (pools.foldl (tickStep idle now vac2) acc2).vacuumed := by
  intro pools
  induction pools with
  | nil => intro acc acc2 h1 h2; exact ⟨h1, h2⟩
  | cons hd tl ih =>
    intro acc acc2 h1 h2
    rw [List.foldl_cons, List.foldl_cons]
    have hstep : (tickStep idle now vac acc hd).la = (tickStep idle now vac2 acc2 hd).la ∧
        (tickStep idle now vac acc hd).vacuumed
          = (tickStep idle now vac2 acc2 hd).vacuumed := by
      simp only [tickStep, h1, h2]
      by_cases hc : idle < now - (laLookup hd acc2.la).getD now <;> simp [hc]
    exact ih _ _ hstep.1 hstep.2

theorem tick_failed_eq (idle now : Nat) (vac : Str → Bool) :
    ∀ (pools : List Str) (acc : TickAcc),
      acc.failed = acc.vacuumed.filter (fun ns => ! vac ns) →
      (pools.foldl (tickStep idle now vac) acc).failed
        = ((pools.foldl (tickStep idle now vac) acc).vacuumed).filter fun ns => ! vac ns := by
  intro pools
  induction pools with
  | nil => intro acc h; exact h
  | cons hd tl ih =>
    intro acc h
    rw [List.foldl_cons]
    apply ih
    simp only [tickStep]
    by_cases hc : idle < now - (laLookup hd acc.la).getD now
    · rw [if_pos hc]
      by_cases hv : vac hd <;> simp [hv, h, List.filter_append]
    · rw [if_neg hc]
      exact h

/-- C9: one background tick compacts exactly the snapshotted namespaces whose
last-access marker is strictly idle beyond the threshold; every compacted
namespace's marker is reset to the tick time, and the tick's bookkeeping (markers
and compaction set) is independent of the compaction-outcome oracle — compaction
failures are only collected into the reported list (exactly the compacted
namespaces whose `VACUUM` failed) and never stop the tick, which is a total
function. -/
theorem background_tick_spec (pools : List Str) (idle now : Nat)
    (vac vac2 : Str → Bool) (la : List (Str × Nat)) (hnd : pools.Nodup) :
    (tick pools idle now vac la).vacuumed
        = pools.filter (fun ns => decide (idle < now - (laLookup ns la).getD now)) ∧
    (∀ ns ∈ pools,
      laLookup ns (tick pools idle now vac la).la
        = some (if idle < now - (laLookup ns la).getD now then now
                else (laLookup ns la).getD now)) ∧
    (tick pools idle now vac la).la = (tick pools idle now vac2 la).la ∧
    (tick pools idle now vac la).vacuumed = (tick pools idle now vac2 la).vacuumed ∧
    (tick pools idle now vac la).failed
        = ((tick pools idle now vac la).vacuumed).filter fun ns => ! vac ns := by
  obtain ⟨h1, _, h3, _⟩ :=
    tick_go idle now vac la pools ⟨la, [], []⟩ hnd (fun ns _ => rfl)
  obtain ⟨h5, h6⟩ :=
    tick_oracle_indep idle now vac vac2 pools ⟨la, [], []⟩ ⟨la, [], []⟩ rfl rfl
  exact ⟨by simpa [tick] using h1, h3, h5, h6,
    tick_failed_eq idle now vac pools ⟨la, [], []⟩ (by simp)⟩

/-- C9 witness: a single idle namespace whose compaction fails is still compacted. -/
theorem background_tick_spec_witness :
    (tick ["a".toList] 0 5 (fun _ => false) [("a".toList, 1)]).vacuumed = ["a".toList] :=
  (background_tick_spec ["a".toList] 0 5 (fun _ => false) (fun _ => true)
    [("a".toList, 1)] (by decide)).1.trans (by decide)

end Kvmap
